import Mathlib

/-!
Shallow embedding of `src/verify-doc-links.py`, a documentation link checker.
Python strings are modelled as `List Char`; filesystem paths as lists of path
segments (each segment a `List Char`).
-/

/-- A path segment (one component of a filesystem path). -/
abbrev Seg := List Char

/-- Shorthand turning a string literal into a path segment. -/
def seg (s : String) : Seg := s.toList

/-!
### Regular-expression model

Both patterns used by `extract_links` consist of literal characters and greedy
complemented character classes each immediately followed by the excluded
literal character, so matching is deterministic: each class consumes exactly
the run of characters up to the first occurrence of the excluded character,
and no backtracking alternative exists.  `re.findall` scans left to right for
non-overlapping matches, advancing one character when no match starts at the
current position.
-/

/-- Run of characters before the first occurrence of `c`, together with what
follows that occurrence (`none` when `c` does not occur). -/
def splitAtChar (c : Char) : List Char → Option (List Char × List Char)
  | [] => none
  | x :: xs =>
    if x = c then some ([], xs)
    else
      match splitAtChar c xs with
      | some (p, q) => some (x :: p, q)
      | none => none

/-- Attempt to match the Markdown pattern `\[([^\]]+)\]\(([^)]+)\)` at the
start of the input; on success returns (group 1, group 2, remainder after the
match). -/
def tryMdMatch : List Char → Option (List Char × List Char × List Char)
  | [] => none
  | c :: rest =>
    if c = '[' then
      match splitAtChar ']' rest with
      | some (text, rest2) =>
        if text = [] then none
        else
          match rest2 with
          | '(' :: rest3 =>
            match splitAtChar ')' rest3 with
            | some (url, rest4) => if url = [] then none else some (text, url, rest4)
            | none => none
          | _ => none
      | none => none
    else none

/-- Attempt to match the AsciiDoc pattern `link:([^\[]+)\[([^\]]+)\]` at the
start of the input; on success returns (group 1, group 2, remainder). -/
def tryAdocMatch : List Char → Option (List Char × List Char × List Char)
  | c1 :: c2 :: c3 :: c4 :: c5 :: rest =>
    if c1 = 'l' ∧ c2 = 'i' ∧ c3 = 'n' ∧ c4 = 'k' ∧ c5 = ':' then
      match splitAtChar '[' rest with
      | some (url, rest2) =>
        if url = [] then none
        else
          match splitAtChar ']' rest2 with
          | some (text, rest3) => if text = [] then none else some (url, text, rest3)
          | none => none
      | none => none
    else none
  | _ => none

/-- Left-to-right non-overlapping scan for Markdown matches, with fuel (the
fuel is initialised to the input length, which always suffices since a match
consumes at least one character). -/
def mdScanAux : Nat → List Char → List (List Char × List Char)
  | 0, _ => []
  | _ + 1, [] => []
  | fuel + 1, c :: cs =>
    match tryMdMatch (c :: cs) with
    | some (t, u, rest) => (t, u) :: mdScanAux fuel rest
    | none => mdScanAux fuel cs

/-- Left-to-right non-overlapping scan for AsciiDoc matches, with fuel. -/
def adocScanAux : Nat → List Char → List (List Char × List Char)
  | 0, _ => []
  | _ + 1, [] => []
  | fuel + 1, c :: cs =>
    match tryAdocMatch (c :: cs) with
    | some (u, t, rest) => (u, t) :: adocScanAux fuel rest
    | none => adocScanAux fuel cs

/-- Model of `re.findall(r"\[([^\]]+)\]\(([^)]+)\)", content)`: the list of
(display text, target) group pairs. -/
def mdFindall (content : List Char) : List (List Char × List Char) :=
  mdScanAux content.length content

/-- Model of `re.findall(r"link:([^\[]+)\[([^\]]+)\]", content)`: the list of
(target, display text) group pairs. -/
def adocFindall (content : List Char) : List (List Char × List Char) :=
  adocScanAux content.length content

/-- Model of `url.startswith(("http://", "https://", "#", "mailto:"))`. -/
def isExternal (url : List Char) : Bool :=
  ("http://".toList).isPrefixOf url || ("https://".toList).isPrefixOf url ||
    ("#".toList).isPrefixOf url || ("mailto:".toList).isPrefixOf url

/-- Model of `extract_links(content, file_type)`: returns (target, display
text) pairs, excluding targets with an external/anchor/mailto prefix.  In the
Markdown branch the source reorders the matched `(text, url)` group pairs to
`(url, text)`; the AsciiDoc groups are already in `(url, text)` order. -/
def extract_links (content : List Char) (file_type : String) :
    List (List Char × List Char) :=
  if file_type = "md" then
    ((mdFindall content).filter fun m => !isExternal m.2).map fun m => (m.2, m.1)
  else
    (adocFindall content).filter fun m => !isExternal m.1

/-!
### Path model

Paths handed to `check_link_exists` are relative paths produced by
`Path("docs").rglob`, so a source file is a list of segments relative to the
process working directory `cwd`.  Link targets are raw character strings,
parsed by pathlib on the `/` join.
-/

/-- Split a character string on `'/'` into path segments. -/
def splitSlash : List Char → List Seg
  | [] => [[]]
  | c :: cs =>
    match splitSlash cs with
    | [] => [[c]]
    | s :: rest => if c = '/' then [] :: s :: rest else (c :: s) :: rest

/-- Normalisation performed by `Path.resolve()` on an absolute segment list
(no symlinks in the model): empty and `.` segments vanish, `..` removes the
preceding segment (at the root it is a no-op). -/
def normSegs (segs : List Seg) : List Seg :=
  segs.foldl
    (fun acc s =>
      if s = [] then acc
      else if s = ['.'] then acc
      else if s = ['.', '.'] then acc.dropLast
      else acc ++ [s])
    []

/-- Model of pathlib's `/` join of a relative directory with a raw link
string.  Per pathlib, a right operand that is an absolute path (leading `/`)
discards the left operand entirely.  Result: (is-absolute flag, segments). -/
def pyJoin (dir : List Seg) (link : List Char) : Bool × List Seg :=
  if link.head? = some '/' then (true, splitSlash link)
  else (false, dir ++ splitSlash link)

/-- Model of `Path.resolve()`: a relative path is made absolute against the
working directory, then segments are normalised. -/
def pyResolve (cwd : List Seg) (p : Bool × List Seg) : List Seg :=
  normSegs (if p.1 then p.2 else cwd ++ p.2)

/-!
### Filesystem and orchestration model

The filesystem state visible to one run: the working directory, whether
`docs` exists, the recursively discovered `*.md` and `*.adoc` files (relative
path and content, in `rglob` order, `.md` files first as in the source), and
an existence oracle on resolved absolute paths.
-/

/-- Filesystem state for one run of the checker. -/
structure FS where
  cwd : List Seg
  docsExists : Bool
  mdFiles : List (List Seg × List Char)
  adocFiles : List (List Seg × List Char)
  fileExists : List Seg → Bool

/-- Model of `check_link_exists(source_file, link_path)`: the source computes
`(source_dir / link_path).resolve()` in both branches of its `if
link_path.startswith("../")` conditional.  Returns (exists flag, resolved
target). -/
def check_link_exists (fs : FS) (source_file : List Seg) (link_path : List Char) :
    Bool × List Seg :=
  let source_dir := source_file.dropLast
  let target :=
    if ("../".toList).isPrefixOf link_path then
      pyResolve fs.cwd (pyJoin source_dir link_path)
    else
      pyResolve fs.cwd (pyJoin source_dir link_path)
  (fs.fileExists target, target)

/-- One record appended to `broken_links`: `(file_path, link, text, target)`. -/
structure BrokenLink where
  source : List Seg
  link : List Char
  text : List Char
  target : List Seg
deriving DecidableEq

/-- Model of `list(docs.rglob("*.md")) + list(docs.rglob("*.adoc"))`, each
file paired with its content and the file type the source derives from the
suffix. -/
def allFiles (fs : FS) : List (List Seg × (List Char × String)) :=
  (fs.mdFiles.map fun f => (f.1, (f.2, "md"))) ++
    (fs.adocFiles.map fun f => (f.1, (f.2, "adoc")))

/-- Per-file body of the main loop: number of extracted links, and the broken
records appended for this file. -/
def processFile (fs : FS) (path : List Seg) (content : List Char) (ft : String) :
    Nat × List BrokenLink :=
  let links := extract_links content ft
  (links.length,
    links.filterMap fun lt =>
      let r := check_link_exists fs path lt.1
      if r.1 then none else some ⟨path, lt.1, lt.2, r.2⟩)

/-- The main loop over a file list, accumulating `total_links` and
`broken_links`. -/
def runFiles (fs : FS) (files : List (List Seg × (List Char × String))) :
    Nat × List BrokenLink :=
  files.foldl
    (fun acc f =>
      (acc.1 + (processFile fs f.1 f.2.1 f.2.2).1,
        acc.2 ++ (processFile fs f.1 f.2.1 f.2.2).2))
    (0, [])

/-- `(total_links, broken_links)` accumulated over all discovered files. -/
def runAll (fs : FS) : Nat × List BrokenLink :=
  runFiles fs (allFiles fs)

/-- One line of standard output, abstracting the printed text. -/
inductive OutLine where
  | dirNotFound
  | checking (files : Nat)
  | results (files total broken : Nat)
  | brokenHeader
  | brokenEntry (source : List Seg) (link : List Char) (text : List Char) (target : List Seg)
  | allValid
deriving DecidableEq

/-- Model of the script entry point `main()`: the printed lines and the returned exit status. -/
def mainRun (fs : FS) : List OutLine × Nat :=
  if fs.docsExists = false then
    ([OutLine.dirNotFound], 1)
  else
    let n := (allFiles fs).length
    let r := runAll fs
    let base := [OutLine.checking n, OutLine.results n r.1 r.2.length]
    if r.2 ≠ [] then
      (base ++ (OutLine.brokenHeader ::
        r.2.map fun b => OutLine.brokenEntry b.source b.link b.text b.target), 1)
    else
      (base ++ [OutLine.allValid], 0)

/-- Modelled from the spec (for comparison in claim C5, following the spec's
words "joined the same way as relative ones … treated as relative to the
source directory"): resolution that always concatenates the target onto the
source directory before normalising. -/
def specResolveAsRelative (cwd dir : List Seg) (link : List Char) : List Seg :=
  normSegs (cwd ++ dir ++ splitSlash link)

/-- The filesystem after creating exactly the file at resolved path `tgt`:
the existence oracle additionally accepts `tgt`, and any documentation files
thereby added to the scanned tree are carried in `extra` (appended to the
`.md` listing). -/
def fsUp (fs : FS) (extra : List (List Seg × List Char)) (tgt : List Seg) : FS :=
  { cwd := fs.cwd
    docsExists := fs.docsExists
    mdFiles := fs.mdFiles ++ extra
    adocFiles := fs.adocFiles
    fileExists := fun q => decide (q = tgt) || fs.fileExists q }

/-! ### Concrete filesystem instances used in witnesses and counterexamples -/

/-- A run whose `docs` tree holds `docs/a/b.md` containing a link `../c.md`,
with `docs/c.md` present. -/
def fsC2 : FS :=
  { cwd := [seg "r"]
    docsExists := true
    mdFiles := [([seg "docs", seg "a", seg "b.md"], "[C](../c.md)".toList)]
    adocFiles := []
    fileExists := fun p => decide (p = [seg "r", seg "docs", seg "c.md"]) }

/-- An empty documentation tree (used where only path arithmetic matters). -/
def fsEmpty : FS :=
  { cwd := [seg "r"]
    docsExists := true
    mdFiles := []
    adocFiles := []
    fileExists := fun _ => false }

/-- A run with a missing `docs` directory. -/
def fsMissing : FS :=
  { cwd := [seg "r"]
    docsExists := false
    mdFiles := []
    adocFiles := []
    fileExists := fun _ => false }

/-- End-to-end scenario E: the only link is an external `https` URL. -/
def fsExternal : FS :=
  { cwd := [seg "r"]
    docsExists := true
    mdFiles := [([seg "docs", seg "index.md"], "[x](https://example.com/x)".toList)]
    adocFiles := []
    fileExists := fun _ => false }

/-- End-to-end scenario D: `docs/guide.adoc` links to the existing sibling
`docs/other.adoc`. -/
def fsC6 : FS :=
  { cwd := [seg "r"]
    docsExists := true
    mdFiles := []
    adocFiles := [([seg "docs", seg "guide.adoc"], "link:other.adoc[Other Page]".toList)]
    fileExists := fun p => decide (p = [seg "r", seg "docs", seg "other.adoc"]) }

/-- A tree where `docs/index.md` links to `other.md#section`; `docs/other.md`
exists but no file named literally `other.md#section` does. -/
def fsC7 : FS :=
  { cwd := [seg "r"]
    docsExists := true
    mdFiles := [([seg "docs", seg "index.md"], "[Sec](other.md#section)".toList)]
    adocFiles := []
    fileExists := fun p => decide (p = [seg "r", seg "docs", seg "other.md"]) }

/-- A tree with a single broken link `nope.md` in `docs/index.md`. -/
def fsC8w : FS :=
  { cwd := [seg "r"]
    docsExists := true
    mdFiles := [([seg "docs", seg "index.md"], "[M](nope.md)".toList)]
    adocFiles := []
    fileExists := fun _ => false }

/-- A tree where two distinct links in `docs/index.md` point at the same
missing file `n.md`. -/
def fsC8x : FS :=
  { cwd := [seg "r"]
    docsExists := true
    mdFiles := [([seg "docs", seg "index.md"], "[a](n.md) [b](n.md)".toList)]
    adocFiles := []
    fileExists := fun _ => false }

/-- A tree whose `docs/index.md` holds one image reference to a missing
`img.png`. -/
def fsC10 : FS :=
  { cwd := [seg "r"]
    docsExists := true
    mdFiles := [([seg "docs", seg "index.md"], "![Logo](img.png)".toList)]
    adocFiles := []
    fileExists := fun _ => false }

/-! ### Lemmas about the regex model -/

theorem splitAtChar_some_append (c : Char) (p q : List Char) (hp : c ∉ p) :
    splitAtChar c (p ++ (c :: q)) = some (p, q) := by
  induction p with
  | nil => simp [splitAtChar]
  | cons x xs ih =>
    have hx : ¬x = c := by
      intro h; exact hp (h ▸ List.mem_cons_self x xs)
    have ihs := ih (fun h => hp (List.mem_cons_of_mem x h))
    simp [splitAtChar, hx, ihs]

theorem tryMdMatch_eq_none (c : Char) (cs : List Char) (h : ¬c = '[') :
    tryMdMatch (c :: cs) = none := by
  simp [tryMdMatch, h]

theorem tryMdMatch_append (A B suf : List Char) (hA : A ≠ []) (hA2 : ']' ∉ A)
    (hB : B ≠ []) (hB2 : ')' ∉ B) :
    tryMdMatch ('[' :: (A ++ (']' :: ('(' :: (B ++ (')' :: suf))))))
      = some (A, B, suf) := by
  simp [tryMdMatch, splitAtChar_some_append ']' A _ hA2,
    splitAtChar_some_append ')' B _ hB2, hA, hB]

theorem mdFindall_mem (pre A B suf : List Char) (hpre : '[' ∉ pre)
    (hA : A ≠ []) (hA2 : ']' ∉ A) (hB : B ≠ []) (hB2 : ')' ∉ B) :
    (A, B) ∈ mdFindall (pre ++ ('[' :: (A ++ (']' :: ('(' :: (B ++ (')' :: suf))))))) := by
  induction pre with
  | nil =>
    rw [List.nil_append, mdFindall, List.length_cons, mdScanAux,
      tryMdMatch_append A B suf hA hA2 hB hB2]
    exact List.mem_cons_self _ _
  | cons p pre' ih =>
    have hp : ¬p = '[' := by
      intro h; exact hpre (h ▸ List.mem_cons_self p pre')
    have ihm := ih (fun h => hpre (List.mem_cons_of_mem p h))
    rw [List.cons_append, mdFindall, List.length_cons, mdScanAux,
      tryMdMatch_eq_none p _ hp]
    exact ihm

theorem tryAdocMatch_shape (l : List Char) (r : List Char × List Char × List Char)
    (h : tryAdocMatch l = some r) :
    ∃ rest, l = 'l' :: ('i' :: ('n' :: ('k' :: (':' :: rest)))) := by
  match l with
  | [] => simp [tryAdocMatch] at h
  | [c1] => simp [tryAdocMatch] at h
  | [c1, c2] => simp [tryAdocMatch] at h
  | [c1, c2, c3] => simp [tryAdocMatch] at h
  | [c1, c2, c3, c4] => simp [tryAdocMatch] at h
  | c1 :: c2 :: c3 :: c4 :: c5 :: rest =>
    by_cases hc : c1 = 'l' ∧ c2 = 'i' ∧ c3 = 'n' ∧ c4 = 'k' ∧ c5 = ':'
    · obtain ⟨h1, h2, h3, h4, h5⟩ := hc
      subst h1; subst h2; subst h3; subst h4; subst h5
      exact ⟨rest, rfl⟩
    · simp [tryAdocMatch, hc] at h

theorem tryAdocMatch_none_pre (P tail : List Char) (hP : ':' ∉ P) (hne : P ≠ []) :
    tryAdocMatch (P ++ ('l' :: ('i' :: ('n' :: ('k' :: (':' :: tail)))))) = none := by
  cases hm : tryAdocMatch (P ++ ('l' :: ('i' :: ('n' :: ('k' :: (':' :: tail)))))) with
  | none => rfl
  | some r =>
    exfalso
    obtain ⟨rest, hshape⟩ := tryAdocMatch_shape _ r hm
    match P, hne with
    | [p1], _ =>
      simp only [List.cons_append, List.nil_append, List.cons.injEq] at hshape
      obtain ⟨_, h2, _⟩ := hshape
      exact absurd h2 (by decide)
    | [p1, p2], _ =>
      simp only [List.cons_append, List.nil_append, List.cons.injEq] at hshape
      obtain ⟨_, _, h3, _⟩ := hshape
      exact absurd h3 (by decide)
    | [p1, p2, p3], _ =>
      simp only [List.cons_append, List.nil_append, List.cons.injEq] at hshape
      obtain ⟨_, _, _, h4, _⟩ := hshape
      exact absurd h4 (by decide)
    | [p1, p2, p3, p4], _ =>
      simp only [List.cons_append, List.nil_append, List.cons.injEq] at hshape
      obtain ⟨_, _, _, _, h5, _⟩ := hshape
      exact absurd h5 (by decide)
    | p1 :: p2 :: p3 :: p4 :: p5 :: P', _ =>
      simp only [List.cons_append, List.cons.injEq] at hshape
      obtain ⟨_, _, _, _, h5, _⟩ := hshape
      exact hP (by
        subst h5
        exact List.mem_cons_of_mem _ (List.mem_cons_of_mem _ (List.mem_cons_of_mem _
          (List.mem_cons_of_mem _ (List.mem_cons_self _ _)))))

theorem tryAdocMatch_append (T D suf : List Char) (hT : T ≠ []) (hT2 : '[' ∉ T)
    (hD : D ≠ []) (hD2 : ']' ∉ D) :
    tryAdocMatch ('l' :: ('i' :: ('n' :: ('k' :: (':' :: (T ++ ('[' :: (D ++ (']' :: suf)))))))))
      = some (T, D, suf) := by
  simp [tryAdocMatch, splitAtChar_some_append '[' T _ hT2,
    splitAtChar_some_append ']' D _ hD2, hT, hD]

theorem adocFindall_mem (pre T D suf : List Char) (hpre : ':' ∉ pre)
    (hT : T ≠ []) (hT2 : '[' ∉ T) (hD : D ≠ []) (hD2 : ']' ∉ D) :
    (T, D) ∈ adocFindall
      (pre ++ ('l' :: ('i' :: ('n' :: ('k' :: (':' :: (T ++ ('[' :: (D ++ (']' :: suf)))))))))) := by
  induction pre with
  | nil =>
    rw [List.nil_append, adocFindall, List.length_cons, adocScanAux,
      tryAdocMatch_append T D suf hT hT2 hD hD2]
    exact List.mem_cons_self _ _
  | cons p pre' ih =>
    have hnone := tryAdocMatch_none_pre (p :: pre')
      (T ++ ('[' :: (D ++ (']' :: suf)))) hpre (by simp)
    have ihm := ih (fun h => hpre (List.mem_cons_of_mem p h))
    rw [List.cons_append] at hnone
    rw [List.cons_append, adocFindall, List.length_cons, adocScanAux, hnone]
    exact ihm

theorem extract_mem_md (content A B : List Char) (h : (A, B) ∈ mdFindall content)
    (hext : isExternal B = false) : (B, A) ∈ extract_links content "md" := by
  simp only [extract_links, if_pos rfl, if_true, List.mem_map, List.mem_filter]
  exact ⟨(A, B), ⟨h, by simp [hext]⟩, rfl⟩

theorem extract_mem_adoc (content T D : List Char) (h : (T, D) ∈ adocFindall content)
    (hext : isExternal T = false) : (T, D) ∈ extract_links content "adoc" := by
  have hne : ("adoc" : String) ≠ "md" := by decide
  simp only [extract_links, if_neg hne, List.mem_filter]
  exact ⟨h, by simp [hext]⟩

theorem mdScanAux_nil (n : Nat) : mdScanAux n ([] : List Char) = [] := by
  cases n <;> rfl

/-- C3: a regex match, in either format, is excluded from the returned link
references exactly when its target starts with `http://`, `https://`, `#`, or
`mailto:`; all other matches are returned, and an `https` link never reaches
the extracted list (end-to-end scenario E). -/
theorem C3_filter_iff (content url text : List Char) :
    ((url, text) ∈ extract_links content "md" ↔
      ((text, url) ∈ mdFindall content ∧ isExternal url = false))
    ∧ ((url, text) ∈ extract_links content "adoc" ↔
      ((url, text) ∈ adocFindall content ∧ isExternal url = false))
    ∧ extract_links "[x](https://example.com/x)".toList "md" = []
    ∧ runAll fsExternal = (0, []) := by
  refine ⟨?_, ?_, by decide, by decide⟩
  · simp only [extract_links, if_pos rfl, if_true, List.mem_map, List.mem_filter]
    constructor
    · rintro ⟨⟨m1, m2⟩, ⟨hm, hf⟩, heq⟩
      cases heq
      exact ⟨hm, by simpa using hf⟩
    · rintro ⟨hm, hext⟩
      exact ⟨(text, url), ⟨hm, by simp [hext]⟩, rfl⟩
  · have hne : ("adoc" : String) ≠ "md" := by decide
    simp only [extract_links, if_neg hne, List.mem_filter]
    constructor
    · rintro ⟨hm, hf⟩
      exact ⟨hm, by simpa using hf⟩
    · rintro ⟨hm, hext⟩
      exact ⟨hm, by simp [hext]⟩

/-- C3 witness: instantiating the iff at a concrete match. -/
theorem C3_witness :
    ("B".toList, "A".toList) ∈ extract_links "[A](B)".toList "md" :=
  (C3_filter_iff "[A](B)".toList "B".toList "A".toList).1.mpr (by decide)

/-- C4 counterexample: the content `[[A](B)` contains the substring `[A](B)`
with `A`, `B` satisfying every stated side condition, yet extraction does not
yield a reference with target `B` and display text `A` — the leftmost regex
match extends the display text to `[A`. -/
theorem C4_counterexample :
    ("A".toList ≠ [] ∧ ']' ∉ "A".toList ∧ "B".toList ≠ [] ∧ ')' ∉ "B".toList
      ∧ isExternal "B".toList = false
      ∧ "[[A](B)".toList = ['['] ++ "[A](B)".toList ++ ([] : List Char))
    ∧ ("B".toList, "A".toList) ∉ extract_links "[[A](B)".toList "md"
    ∧ ("B".toList, "[A".toList) ∈ extract_links "[[A](B)".toList "md" := by
  decide

/-- C4 (amended): for Markdown content of the form `pre ++ [A](B) ++ suf`
where the preceding text `pre` contains no `[` (so no earlier match can
absorb the occurrence), `A` is non-empty without `]`, `B` is non-empty
without `)`, and `B` has no excluded prefix, extraction with the markdown
format yields a link reference with target `B` and display text `A`. -/
theorem C4_markdown_extraction (pre A B suf : List Char) (hpre : '[' ∉ pre)
    (hA : A ≠ []) (hA2 : ']' ∉ A) (hB : B ≠ []) (hB2 : ')' ∉ B)
    (hext : isExternal B = false) :
    (B, A) ∈ extract_links
      (pre ++ ('[' :: (A ++ (']' :: ('(' :: (B ++ (')' :: suf))))))) "md" :=
  extract_mem_md _ A B (mdFindall_mem pre A B suf hpre hA hA2 hB hB2) hext

/-- C4 witness: the amended statement at concrete content `x [A](B) y`. -/
theorem C4_witness :
    ("B".toList, "A".toList) ∈ extract_links
      ("x ".toList ++ ('[' :: ("A".toList ++ (']' :: ('(' :: ("B".toList ++ (')' :: " y".toList))))))) "md" :=
  C4_markdown_extraction "x ".toList "A".toList "B".toList " y".toList (by decide)
    (by decide) (by decide) (by decide) (by decide) (by decide)

/-- C10 counterexample: the content `[![A](B)` contains the image syntax
`![A](B)` with a non-excluded target `B`, yet extraction yields no reference
with target `B` and text `A`: the leftmost match starts at the outer `[` and
returns display text `![A`. -/
theorem C10_counterexample :
    isExternal "B".toList = false
    ∧ ("B".toList, "A".toList) ∉ extract_links "[![A](B)".toList "md"
    ∧ ("B".toList, "![A".toList) ∈ extract_links "[![A](B)".toList "md" := by
  decide

/-- C10 (amended): image syntax is treated as an ordinary link — for content
of the form `pre ++ ![A](B) ++ suf` with `[` absent from `pre` and the usual
side conditions, extraction yields target `B` with text `A` (the `!` is
ignored by the pattern); concretely, a lone image reference to a missing
`img.png` is counted as one checked link and reported broken. -/
theorem C10_image_links (pre A B suf : List Char) (hpre : '[' ∉ pre)
    (hA : A ≠ []) (hA2 : ']' ∉ A) (hB : B ≠ []) (hB2 : ')' ∉ B)
    (hext : isExternal B = false) :
    (B, A) ∈ extract_links
      (pre ++ ('!' :: ('[' :: (A ++ (']' :: ('(' :: (B ++ (')' :: suf)))))))) "md"
    ∧ runAll fsC10 = (1, [⟨[seg "docs", seg "index.md"], "img.png".toList,
        "Logo".toList, [seg "r", seg "docs", seg "img.png"]⟩]) := by
  constructor
  · have hpre' : '[' ∉ pre ++ ['!'] := by
      intro h
      rcases List.mem_append.mp h with h1 | h1
      · exact hpre h1
      · simp at h1
    have h := mdFindall_mem (pre ++ ['!']) A B suf hpre' hA hA2 hB hB2
    rw [List.append_assoc, List.singleton_append] at h
    exact extract_mem_md _ A B h hext
  · decide

/-- C10 witness: the amended statement at concrete content `![A](B)`. -/
theorem C10_witness :
    ("B".toList, "A".toList) ∈ extract_links
      ([] ++ ('!' :: ('[' :: ("A".toList ++ (']' :: ('(' :: ("B".toList ++ (')' :: []))))))))  "md" :=
  (C10_image_links [] "A".toList "B".toList [] (by decide) (by decide) (by decide)
    (by decide) (by decide) (by decide)).1

/-- C6 counterexample: the content `link:link:T[D]` contains the substring
`link:T[D]` with `T`, `D` satisfying every stated side condition, yet
extraction yields no reference with target `T`: the leftmost match starts at
the first `link:` and extends the target to `link:T`. -/
theorem C6_counterexample :
    ("T".toList ≠ [] ∧ '[' ∉ "T".toList ∧ "D".toList ≠ [] ∧ ']' ∉ "D".toList
      ∧ isExternal "T".toList = false)
    ∧ ("T".toList, "D".toList) ∉ extract_links "link:link:T[D]".toList "adoc"
    ∧ ("link:T".toList, "D".toList) ∈ extract_links "link:link:T[D]".toList "adoc" := by
  decide

/-- C6 (amended): for AsciiDoc content of the form `pre ++ link:T[D] ++ suf`
where `pre` contains no `:` (so no earlier `link:` can absorb the
occurrence), `T` is non-empty without `[`, `D` is non-empty without `]`, and
`T` has no excluded prefix, extraction with the asciidoc format yields a link
reference with target `T` and display text `D`; and end-to-end scenario D
(`docs/guide.adoc` linking to the existing sibling `docs/other.adoc`) is
counted as one checked link with zero broken. -/
theorem C6_asciidoc_extraction (pre T D suf : List Char) (hpre : ':' ∉ pre)
    (hT : T ≠ []) (hT2 : '[' ∉ T) (hD : D ≠ []) (hD2 : ']' ∉ D)
    (hext : isExternal T = false) :
    (T, D) ∈ extract_links
      (pre ++ ('l' :: ('i' :: ('n' :: ('k' :: (':' ::
        (T ++ ('[' :: (D ++ (']' :: suf)))))))))) "adoc"
    ∧ runAll fsC6 = (1, []) :=
  ⟨extract_mem_adoc _ T D (adocFindall_mem pre T D suf hpre hT hT2 hD hD2) hext,
    by decide⟩

/-- C6 witness: the amended statement at concrete content ` link:t.adoc[d]`. -/
theorem C6_witness :
    ("t.adoc".toList, "d".toList) ∈ extract_links
      (" ".toList ++ ('l' :: ('i' :: ('n' :: ('k' :: (':' ::
        ("t.adoc".toList ++ ('[' :: ("d".toList ++ (']' :: [])))))))))) "adoc" :=
  (C6_asciidoc_extraction " ".toList "t.adoc".toList "d".toList [] (by decide)
    (by decide) (by decide) (by decide) (by decide) (by decide)).1

/-- C7: a target mixing a path and a fragment is not filtered at extraction
(it does not start with `#`) and its fragment is not stripped: for any
non-excluded target `t` containing `#`, the content `[x](t)` extracts to
exactly the reference `(t, x)`; and on a tree where `docs/index.md` links to
`other.md#section` while only `docs/other.md` exists, the run checks the
literal path `…/docs/other.md#section` and reports the link broken. -/
theorem C7_fragment_literal :
    (∀ (t x : List Char), t ≠ [] → ')' ∉ t → x ≠ [] → ']' ∉ x →
      isExternal t = false → '#' ∈ t →
      extract_links ('[' :: (x ++ (']' :: ('(' :: (t ++ [')']))))) "md" = [(t, x)])
    ∧ runAll fsC7 = (1, [⟨[seg "docs", seg "index.md"], "other.md#section".toList,
        "Sec".toList, [seg "r", seg "docs", seg "other.md#section"]⟩])
    ∧ fsC7.fileExists [seg "r", seg "docs", seg "other.md"] = true := by
  refine ⟨?_, by decide, by decide⟩
  intro t x ht ht2 hx hx2 hext _
  have hm := tryMdMatch_append x t [] hx hx2 ht ht2
  rw [extract_links, if_pos rfl, mdFindall, List.length_cons, mdScanAux, hm]
  simp [mdScanAux_nil, hext]

/-- C7 witness: the universal part at the concrete target
`other.md#section`. -/
theorem C7_witness :
    extract_links ('[' :: ("Sec".toList ++ (']' :: ('(' ::
        ("other.md#section".toList ++ [')']))))) "md"
      = [("other.md#section".toList, "Sec".toList)] :=
  C7_fragment_literal.1 "other.md#section".toList "Sec".toList (by decide)
    (by decide) (by decide) (by decide) (by decide) (by decide)

/-- C2: the resolved path of every checked link equals the target joined (in
pathlib's sense) onto the directory containing the source file and then
normalised against the working directory — with no case distinction for
targets beginning with `../`, since both branches of the source's conditional
compute the same expression; in particular, for `docs/a/b.md` linking to
`../c.md` the resolved path is the normalised absolute form of `docs/c.md`,
and with that file present the link is found to exist and the run reports no
broken links. -/
theorem C2_resolution :
    (∀ (fs : FS) (source_file : List Seg) (link_path : List Char),
      check_link_exists fs source_file link_path
        = (fs.fileExists (pyResolve fs.cwd (pyJoin source_file.dropLast link_path)),
            pyResolve fs.cwd (pyJoin source_file.dropLast link_path)))
    ∧ (check_link_exists fsC2 [seg "docs", seg "a", seg "b.md"] "../c.md".toList).2
        = normSegs (fsC2.cwd ++ ([seg "docs", seg "a"] ++ splitSlash "../c.md".toList))
    ∧ (check_link_exists fsC2 [seg "docs", seg "a", seg "b.md"] "../c.md".toList).2
        = [seg "r", seg "docs", seg "c.md"]
    ∧ (check_link_exists fsC2 [seg "docs", seg "a", seg "b.md"] "../c.md".toList).1
        = true
    ∧ runAll fsC2 = (1, []) := by
  refine ⟨?_, by decide, by decide, by decide, by decide⟩
  intro fs source_file link_path
  rw [check_link_exists]
  simp only [ite_self]

/-- C5 counterexample: resolving the target `/c.md` from the source file
`docs/a/b.md` yields the filesystem-root path `/c.md`, not the result of
joining it relative to the source directory as the claim states. -/
theorem C5_counterexample :
    (check_link_exists fsEmpty [seg "docs", seg "a", seg "b.md"] "/c.md".toList).2
      = [seg "c.md"]
    ∧ specResolveAsRelative fsEmpty.cwd [seg "docs", seg "a"] "/c.md".toList
      = [seg "r", seg "docs", seg "a", seg "c.md"]
    ∧ (check_link_exists fsEmpty [seg "docs", seg "a", seg "b.md"] "/c.md".toList).2
      ≠ specResolveAsRelative fsEmpty.cwd [seg "docs", seg "a"] "/c.md".toList := by
  decide

/-- C5 (amended): a target beginning with `/` is treated by pathlib's join as
filesystem-root-absolute — it discards the source directory entirely and
resolves to its own normalised segments; only targets not beginning with `/`
are resolved relative to the source file's directory. -/
theorem C5_absolute_targets (fs : FS) (source_file : List Seg) (link_path : List Char) :
    (link_path.head? = some '/' →
      (check_link_exists fs source_file link_path).2 = normSegs (splitSlash link_path))
    ∧ (link_path.head? ≠ some '/' →
      (check_link_exists fs source_file link_path).2
        = specResolveAsRelative fs.cwd source_file.dropLast link_path) := by
  constructor
  · intro h
    rw [check_link_exists]
    simp [ite_self, pyJoin, pyResolve, if_pos h]
  · intro h
    rw [check_link_exists]
    simp [ite_self, pyJoin, pyResolve, if_neg h, specResolveAsRelative,
      List.append_assoc]

/-- C5 witness: both branches of the amended statement at concrete inputs. -/
theorem C5_witness :
    (check_link_exists fsEmpty [seg "docs", seg "a", seg "b.md"] "/c.md".toList).2
      = normSegs (splitSlash "/c.md".toList)
    ∧ (check_link_exists fsEmpty [seg "docs", seg "a", seg "b.md"] "x.md".toList).2
      = specResolveAsRelative fsEmpty.cwd ([seg "docs", seg "a", seg "b.md"] : List Seg).dropLast
          "x.md".toList :=
  ⟨(C5_absolute_targets fsEmpty [seg "docs", seg "a", seg "b.md"] "/c.md".toList).1
      (by decide),
    (C5_absolute_targets fsEmpty [seg "docs", seg "a", seg "b.md"] "x.md".toList).2
      (by decide)⟩

/-- C1: the exit status is `0` exactly when the documentation root exists and
no broken links are found, and `1` when the root is missing or at least one
link is broken; when the root is missing the output is exactly the distinct
directory-not-found line, so no link processing is reflected in the output. -/
theorem C1_exit_status (fs : FS) :
    (fs.docsExists = false → mainRun fs = ([OutLine.dirNotFound], 1))
    ∧ (fs.docsExists = true →
        ((mainRun fs).2 = if (runAll fs).2 = [] then 0 else 1)
        ∧ OutLine.dirNotFound ∉ (mainRun fs).1)
    ∧ ((mainRun fs).2 = 0 ↔ (fs.docsExists = true ∧ (runAll fs).2 = [])) := by
  cases hdoc : fs.docsExists with
  | false =>
    refine ⟨fun _ => by simp [mainRun, hdoc],
      fun h => absurd h (by decide), ?_⟩
    simp [mainRun, hdoc]
  | true =>
    refine ⟨fun h => absurd h (by decide), fun _ => ⟨?_, ?_⟩, ?_⟩
    · by_cases hb : (runAll fs).2 = [] <;> simp [mainRun, hdoc, hb]
    · by_cases hb : (runAll fs).2 = [] <;> simp [mainRun, hdoc, hb]
    · by_cases hb : (runAll fs).2 = [] <;> simp [mainRun, hdoc, hb]

/-- C1 witness: the missing-root case at a concrete filesystem, and the
success case at a concrete tree with one working link. -/
theorem C1_witness :
    mainRun fsMissing = ([OutLine.dirNotFound], 1)
    ∧ ((mainRun fsC2).2 = if (runAll fsC2).2 = [] then 0 else 1)
    ∧ ((mainRun fsC2).2 = 0 ↔ (fsC2.docsExists = true ∧ (runAll fsC2).2 = [])) :=
  ⟨(C1_exit_status fsMissing).1 rfl,
    ((C1_exit_status fsC2).2.1 rfl).1,
    (C1_exit_status fsC2).2.2⟩

/-- C9: the checker is a pure function of the filesystem state — two runs on
identical state produce the same files-checked count, the same total-links
count, the same ordered broken-link list, and the same printed report and
exit status. -/
theorem C9_deterministic (fs1 fs2 : FS) (h : fs1 = fs2) :
    (allFiles fs1).length = (allFiles fs2).length
    ∧ (runAll fs1).1 = (runAll fs2).1
    ∧ (runAll fs1).2 = (runAll fs2).2
    ∧ mainRun fs1 = mainRun fs2 := by
  subst h
  exact ⟨rfl, rfl, rfl, rfl⟩

/-- C9 witness: the determinism statement at a concrete filesystem. -/
theorem C9_witness : mainRun fsC7 = mainRun fsC7 :=
  (C9_deterministic fsC7 fsC7 rfl).2.2.2

/-! ### Lemmas about the accumulating main loop -/

theorem runFiles_accum (fs : FS) (files : List (List Seg × (List Char × String)))
    (a : Nat) (l : List BrokenLink) :
    files.foldl
      (fun acc f =>
        (acc.1 + (processFile fs f.1 f.2.1 f.2.2).1,
          acc.2 ++ (processFile fs f.1 f.2.1 f.2.2).2))
      (a, l)
    = (a + (runFiles fs files).1, l ++ (runFiles fs files).2) := by
  induction files generalizing a l with
  | nil => simp [runFiles]
  | cons f fl ih =>
    rw [runFiles, List.foldl_cons, List.foldl_cons, ih, ih]
    simp [Nat.add_assoc, List.append_assoc]

theorem runFiles_cons (fs : FS) (f : List Seg × (List Char × String))
    (fl : List (List Seg × (List Char × String))) :
    runFiles fs (f :: fl)
      = ((processFile fs f.1 f.2.1 f.2.2).1 + (runFiles fs fl).1,
          (processFile fs f.1 f.2.1 f.2.2).2 ++ (runFiles fs fl).2) := by
  rw [runFiles, List.foldl_cons]
  simpa using runFiles_accum fs fl (processFile fs f.1 f.2.1 f.2.2).1
    (processFile fs f.1 f.2.1 f.2.2).2

theorem runFiles_append (fs : FS) (l1 l2 : List (List Seg × (List Char × String))) :
    runFiles fs (l1 ++ l2)
      = ((runFiles fs l1).1 + (runFiles fs l2).1,
          (runFiles fs l1).2 ++ (runFiles fs l2).2) := by
  induction l1 with
  | nil => simp [runFiles]
  | cons f fl ih =>
    rw [List.cons_append, runFiles_cons, runFiles_cons, ih]
    simp [Nat.add_assoc, List.append_assoc]

theorem check_fsUp (fs : FS) (extra : List (List Seg × List Char)) (tgt : List Seg)
    (path : List Seg) (link : List Char) :
    check_link_exists (fsUp fs extra tgt) path link
      = ((decide ((check_link_exists fs path link).2 = tgt)
            || fs.fileExists (check_link_exists fs path link).2),
          (check_link_exists fs path link).2) := rfl

theorem check_fst (fs : FS) (path : List Seg) (link : List Char) :
    (check_link_exists fs path link).1
      = fs.fileExists ((check_link_exists fs path link).2) := rfl

theorem filterMap_broken_update (tgt : List Seg) (path : List Seg)
    (f : List Char × List Char → Bool) (g : List Char × List Char → List Seg)
    (links : List (List Char × List Char)) :
    links.filterMap
        (fun lt => if decide (g lt = tgt) || f lt then none
          else some (BrokenLink.mk path lt.1 lt.2 (g lt)))
      = (links.filterMap
          (fun lt => if f lt then none
            else some (BrokenLink.mk path lt.1 lt.2 (g lt)))).filter
            fun b => !decide (b.target = tgt) := by
  induction links with
  | nil => rfl
  | cons lt rest ih =>
    rw [List.filterMap_cons, List.filterMap_cons]
    cases hf : f lt with
    | true => simpa [hf] using ih
    | false =>
      simp only [Bool.or_eq_true, decide_eq_true_eq] at ih
      cases hg : decide (g lt = tgt) with
      | true => simp [hf, hg, ih]
      | false => simp [hf, hg, ih]

theorem processFile_fsUp (fs : FS) (extra : List (List Seg × List Char))
    (tgt path : List Seg) (content : List Char) (ft : String) :
    processFile (fsUp fs extra tgt) path content ft
      = ((processFile fs path content ft).1,
          (processFile fs path content ft).2.filter fun b => !decide (b.target = tgt)) := by
  simp only [processFile, check_fsUp, check_fst, Prod.mk.injEq, true_and]
  exact filterMap_broken_update tgt path
    (fun lt => fs.fileExists ((check_link_exists fs path lt.1).2))
    (fun lt => (check_link_exists fs path lt.1).2) (extract_links content ft)

theorem runFiles_fsUp (fs : FS) (extra : List (List Seg × List Char)) (tgt : List Seg)
    (files : List (List Seg × (List Char × String))) :
    runFiles (fsUp fs extra tgt) files
      = ((runFiles fs files).1,
          (runFiles fs files).2.filter fun b => !decide (b.target = tgt)) := by
  induction files with
  | nil => rfl
  | cons f fl ih =>
    rw [runFiles_cons, runFiles_cons, ih, processFile_fsUp]
    simp [List.filter_append]

theorem runFiles_noLinks (fs : FS) (extra : List (List Seg × List Char))
    (hextra : ∀ e ∈ extra, extract_links e.2 "md" = []) :
    runFiles fs (extra.map fun f => (f.1, (f.2, "md"))) = (0, []) := by
  induction extra with
  | nil => rfl
  | cons e el ih =>
    rw [List.map_cons, runFiles_cons,
      ih fun x hx => hextra x (List.mem_cons_of_mem e hx)]
    simp [processFile, hextra e (List.mem_cons_self e el)]

theorem allFiles_fsUp (fs : FS) (extra : List (List Seg × List Char)) (tgt : List Seg) :
    allFiles (fsUp fs extra tgt)
      = (fs.mdFiles.map fun f => (f.1, (f.2, "md")))
        ++ ((extra.map fun f => (f.1, (f.2, "md")))
          ++ (fs.adocFiles.map fun f => (f.1, (f.2, "adoc")))) := by
  simp [allFiles, fsUp, List.map_append, List.append_assoc]

theorem length_filter_not (l : List BrokenLink) (q : BrokenLink → Bool) :
    (l.filter fun b => !q b).length + l.countP q = l.length := by
  induction l with
  | nil => rfl
  | cons b rest ih =>
    cases hq : q b <;> simp [List.filter_cons, List.countP_cons, hq] <;> omega

/-- C8 (amended): creating exactly the file at a broken link's resolved
target (updating the existence oracle at that path, with any documentation
files so created contributing zero links) removes that record on a re-run,
leaves the total-links count unchanged, and decreases the broken count by
the number of broken records resolving to that target — at least one, and
exactly one when that record is the only broken link with that resolved
target. -/
theorem C8_round_trip (fs : FS) (b : BrokenLink) (extra : List (List Seg × List Char))
    (hb : b ∈ (runAll fs).2)
    (hextra : ∀ e ∈ extra, extract_links e.2 "md" = []) :
    (runAll (fsUp fs extra b.target)).1 = (runAll fs).1
    ∧ (runAll (fsUp fs extra b.target)).2
        = (runAll fs).2.filter (fun r => !decide (r.target = b.target))
    ∧ b ∉ (runAll (fsUp fs extra b.target)).2
    ∧ (runAll (fsUp fs extra b.target)).2.length
        = (runAll fs).2.length - (runAll fs).2.countP (fun r => decide (r.target = b.target))
    ∧ 0 < (runAll fs).2.countP (fun r => decide (r.target = b.target))
    ∧ ((runAll fs).2.countP (fun r => decide (r.target = b.target)) = 1 →
        (runAll (fsUp fs extra b.target)).2.length + 1 = (runAll fs).2.length) := by
  have hE := runFiles_noLinks fs extra hextra
  have h1 : runFiles fs (allFiles (fsUp fs extra b.target)) = runAll fs := by
    rw [allFiles_fsUp, runFiles_append, runFiles_append, hE, runAll, allFiles,
      runFiles_append]
    simp
  have hrun : runAll (fsUp fs extra b.target)
      = ((runAll fs).1,
          (runAll fs).2.filter fun r => !decide (r.target = b.target)) := by
    rw [runAll, runFiles_fsUp, h1]
  have hcount := length_filter_not (runAll fs).2 fun r => decide (r.target = b.target)
  have hpos : 0 < (runAll fs).2.countP fun r => decide (r.target = b.target) :=
    List.countP_pos_iff.mpr ⟨b, hb, by simp⟩
  have hrun1 : (runAll (fsUp fs extra b.target)).1 = (runAll fs).1 := by rw [hrun]
  have hrun2 : (runAll (fsUp fs extra b.target)).2
      = (runAll fs).2.filter fun r => !decide (r.target = b.target) := by rw [hrun]
  refine ⟨hrun1, hrun2, ?_, by rw [hrun2]; omega, hpos, fun h1c => by
    rw [hrun2]; omega⟩
  rw [hrun2]
  intro hmem
  have hx := (List.mem_filter.mp hmem).2
  simp at hx

/-- C8 counterexample: with two distinct links in `docs/index.md` both
resolving to the missing `docs/n.md`, creating exactly that file removes
both records on the re-run — the broken count drops from 2 to 0, not by
exactly one. -/
theorem C8_counterexample :
    (runAll fsC8x).2.length = 2
    ∧ (runAll (fsUp fsC8x [] [seg "r", seg "docs", seg "n.md"])).1 = (runAll fsC8x).1
    ∧ (runAll (fsUp fsC8x [] [seg "r", seg "docs", seg "n.md"])).2.length = 0
    ∧ (runAll (fsUp fsC8x [] [seg "r", seg "docs", seg "n.md"])).2.length
        ≠ (runAll fsC8x).2.length - 1 := by
  decide

/-- C8 witness: the amended statement at a concrete tree with one broken
link (`docs/index.md` → `nope.md`), created with no new documentation
files. -/
theorem C8_witness :
    (runAll (fsUp fsC8w []
        [seg "r", seg "docs", seg "nope.md"])).1 = (runAll fsC8w).1
    ∧ (BrokenLink.mk [seg "docs", seg "index.md"] "nope.md".toList "M".toList
        [seg "r", seg "docs", seg "nope.md"])
      ∉ (runAll (fsUp fsC8w [] [seg "r", seg "docs", seg "nope.md"])).2 := by
  have h := C8_round_trip fsC8w
    (BrokenLink.mk [seg "docs", seg "index.md"] "nope.md".toList "M".toList
      [seg "r", seg "docs", seg "nope.md"])
    [] (by decide) (by intro e he; cases he)
  exact ⟨h.1, h.2.2.1⟩
